import Mathlib

/-!
Verification development for the go.jsonvalue repository.

The Go sources are embedded shallowly:
* Go byte slices become `List Nat` (each element a byte value `< 256`);
* machine integers become `Nat`/`Int` with explicit two's-complement
  wrapping where the source converts between widths;
* Go `float64` is modelled as an exact rational (`ℚ`); the numeric claims
  checked here only exercise values where rounding plays no role;
* fallible Go code returns `Except GoErr _`; a Go runtime panic (index out
  of range) is the distinguished outcome `GoErr.goPanic`;
* the buffer-mutating decoder of `utf8.go` is embedded as explicit state
  passing (buffer, read index, write index), with a fuel parameter that
  strictly dominates the loop's iteration count.
-/

namespace GoJsonvalue

/-- Byte strings: Go `[]byte`, each entry a byte value. -/
abbrev Bytes := List Nat

/-- Named error values / error sites of the package.  The package declares
its sentinel errors (`ErrNilParameter`, `ErrRawBytesUnrecignized`,
`ErrNotValidBoolValue`, spelling as in the source) outside the provided
files; here each distinct error site gets a distinct constructor. -/
inductive Err where
  | nilParameter
  | rawBytesUnrecignized
  | notValidBoolValue
  | malformedNumber
  | illegalUTF8
  | escapeNotFollowed
  | unrecognizedEscapeChar
  | invalidUnicodeChar
  | insufficientUTF16
  | expectUnicodeEscape
  | expectSecondUTF16
  deriving DecidableEq, Repr

/-- Outcome of running a piece of Go code: an ordinary returned `error`,
a runtime panic (out-of-range index), or exhaustion of the model's fuel
(never reached on the concrete inputs used below). -/
inductive GoErr where
  | goError : Err → GoErr
  | goPanic
  | outOfFuel
  deriving DecidableEq, Repr

/-- Decidable equality for `Except` results, so concrete runs of the
embedded code can be checked by `decide`. -/
instance {ε α : Type _} [DecidableEq ε] [DecidableEq α] :
    DecidableEq (Except ε α) := fun x y =>
  match x, y with
  | .ok a, .ok b =>
    if h : a = b then .isTrue (by rw [h])
    else .isFalse (fun hh => h (Except.ok.inj hh))
  | .error a, .error b =>
    if h : a = b then .isTrue (by rw [h])
    else .isFalse (fun hh => h (Except.error.inj hh))
  | .ok _, .error _ => .isFalse (fun hh => Except.noConfusion hh)
  | .error _, .ok _ => .isFalse (fun hh => Except.noConfusion hh)

/-- Checked byte read `b[i]`: Go panics when the index is out of range. -/
def readB (b : Bytes) (i : Nat) : Except GoErr Nat :=
  match b.get? i with
  | some c => .ok c
  | none => .error .goPanic

/-- Embeds `chrToHex` of utf8.go.  Exactly as in the source it accepts
`0-9`, `a-z` and `A-Z` (the two letter ranges run to `z`/`Z`, not `f`/`F`).
`none` plays the role of setting `*errOut`. -/
def chrToHex (chr : Nat) : Option Nat :=
  if 48 ≤ chr ∧ chr ≤ 57 then some (chr - 48)
  else if 97 ≤ chr ∧ chr ≤ 122 then some (chr - 97 + 10)
  else if 65 ≤ chr ∧ chr ≤ 90 then some (chr - 65 + 10)
  else none

/-- Reads four bytes at `i`, `i+1`, `i+2`, `i+3` and converts them with
`chrToHex`, combining them as `(b3 << 12) + (b2 << 8) + (b1 << 4) + b0`
exactly as `handleEscapeUnicodeStart` does. -/
def readHex4 (b : Bytes) (i : Nat) : Except GoErr (Option Nat) := do
  let c3 ← readB b i
  let c2 ← readB b (i + 1)
  let c1 ← readB b (i + 2)
  let c0 ← readB b (i + 3)
  match chrToHex c3, chrToHex c2, chrToHex c1, chrToHex c0 with
  | some b3, some b2, some b1, some b0 =>
      pure (some ((b3 <<< 12) + (b2 <<< 8) + (b1 <<< 4) + b0))
  | _, _, _, _ => pure none

/-- Embeds `assignWideRune` of utf8.go: writes the 2-, 3- or 4-byte UTF-8
encoding of `r` at `dst` and returns the new buffer with the number of
bytes written. -/
def assignWideRune (b : Bytes) (dst r : Nat) : Bytes × Nat :=
  if r ≤ 0x7FF then
    let b0 := ((r &&& 0x7C0) >>> 6) + 0xC0
    let b1 := (r &&& 0x03F) + 0x80
    ((b.set dst b0).set (dst + 1) b1, 2)
  else if r ≤ 0xFFFF then
    let b0 := ((r &&& 0xF000) >>> 12) + 0xE0
    let b1 := ((r &&& 0x0FC0) >>> 6) + 0x80
    let b2 := (r &&& 0x003F) + 0x80
    (((b.set dst b0).set (dst + 1) b1).set (dst + 2) b2, 3)
  else
    let b0 := ((r &&& 0x1C0000) >>> 18) + 0xF0
    let b1 := ((r &&& 0x03F000) >>> 12) + 0x80
    let b2 := ((r &&& 0x000FC0) >>> 6) + 0x80
    let b3 := (r &&& 0x00003F) + 0x80
    ((((b.set dst b0).set (dst + 1) b1).set (dst + 2) b2).set (dst + 3) b3, 4)

/-- Embeds `handleEscapeUnicodeStart` of utf8.go.  `i` points at the
backslash of a `\uXXXX` escape; returns the updated buffer, read index and
write index.  Faithful details: the guard `end-*i <= 5`; the surrogate
test `r <= 0xD7FF || r >= 0xE000`; and for the second unit the *signed*
comparison `ex - 0xDC00 > 0x3FF` (computed in `Int`, as Go's `rune` is a
signed 32-bit type). -/
def handleEscapeUnicodeStart (b : Bytes) (i endI sectEnd : Nat) :
    Except GoErr (Bytes × Nat × Nat) := do
  if endI - i ≤ 5 then
    .error (.goError .escapeNotFollowed)
  else
    match ← readHex4 b (i + 2) with
    | none => .error (.goError .invalidUnicodeChar)
    | some r =>
      if r ≤ 0xD7FF ∨ 0xE000 ≤ r then
        let (b1, le) := assignWideRune b sectEnd r
        pure (b1, i + 6, sectEnd + le)
      else if endI - i ≤ 11 then
        .error (.goError .insufficientUTF16)
      else do
        let c6 ← readB b (i + 6)
        let c7 ← readB b (i + 7)
        if c6 ≠ 92 ∨ c7 ≠ 117 then
          .error (.goError .expectUnicodeEscape)
        else
          match ← readHex4 b (i + 8) with
          | none => .error (.goError .invalidUnicodeChar)
          | some ex =>
            let exS : Int := (ex : Int) - 0xDC00
            if exS > 0x03FF then
              .error (.goError .expectSecondUTF16)
            else
              let rS : Int := (((r : Int) - 0xD800) <<< 10) + exS + 0x10000
              let (b1, le) := assignWideRune b sectEnd rS.toNat
              pure (b1, i + 12, sectEnd + le)

/-- Embeds `handleEscapeStart` of utf8.go.  `i` points at a backslash; the
source guard is `end-*i < 1`, which (with `i < endI` at every call site)
never fires, so the read of `b[i+1]` can run past the end. -/
def handleEscapeStart (b : Bytes) (i endI sectEnd : Nat) :
    Except GoErr (Bytes × Nat × Nat) := do
  if endI - i < 1 then
    .error (.goError .escapeNotFollowed)
  else
    let chr ← readB b (i + 1)
    if chr = 34 ∨ chr = 39 ∨ chr = 47 ∨ chr = 92 then
      pure (b.set sectEnd chr, i + 2, sectEnd + 1)
    else if chr = 98 then
      pure (b.set sectEnd 8, i + 2, sectEnd + 1)
    else if chr = 102 then
      pure (b.set sectEnd 12, i + 2, sectEnd + 1)
    else if chr = 114 then
      pure (b.set sectEnd 13, i + 2, sectEnd + 1)
    else if chr = 110 then
      pure (b.set sectEnd 10, i + 2, sectEnd + 1)
    else if chr = 116 then
      pure (b.set sectEnd 9, i + 2, sectEnd + 1)
    else if chr = 117 then
      handleEscapeUnicodeStart b i endI sectEnd
    else
      .error (.goError .unrecognizedEscapeChar)

/-- Embeds the `memcpy` helper of utf8.go: copies `le` bytes from `src` to
`dst` inside the buffer (no-op when `dst = src`, as in the source).  At
every call site `dst ≤ src`, so a forward byte-by-byte copy matches the C
`memcpy` the source invokes. -/
def memcpyB (b : Bytes) (dst src le : Nat) : Bytes :=
  if dst = src then b
  else (List.range le).foldl
    (fun acc j => acc.set (dst + j) ((acc.get? (src + j)).getD 0)) b

/-- Embeds the `shift` closure inside `parseStrFromBytes`: bounds check,
block copy, and advance of both indices. -/
def shiftB (b : Bytes) (i endI sectEnd le : Nat) :
    Except GoErr (Bytes × Nat × Nat) :=
  if endI - i < le then .error (.goError .illegalUTF8)
  else .ok (memcpyB b sectEnd i le, i + le, sectEnd + le)

/-- Loop body of `parseStrFromBytes` from utf8.go, with explicit fuel.
Each genuine iteration advances `i` by at least one, so fuel
`length + 1` can never be exhausted; the branch order and the byte-class
masks (`&0xC0 == 0xC0`, `&0xE0 == 0xE0`, `&0xF8 == 0xF8` for the
`runeIdentifyingBytes2/3/4` predicates) are exactly those of the source. -/
def parseStrLoop (endI : Nat) : Nat → Bytes → Nat → Nat → Except GoErr (Bytes × Nat)
  | 0, _, _, _ => .error .outOfFuel
  | fuel + 1, b, i, sectEnd =>
    if i < endI then
      match readB b i with
      | .error e => .error e
      | .ok chr =>
        if chr ≤ 0x7F then
          if chr = 92 then
            match handleEscapeStart b i endI sectEnd with
            | .error e => .error e
            | .ok (b1, i1, s1) => parseStrLoop endI fuel b1 i1 s1
          else
            parseStrLoop endI fuel b (i + 1) (sectEnd + 1)
        else if chr &&& 0xC0 = 0xC0 then
          match shiftB b i endI sectEnd 2 with
          | .error e => .error e
          | .ok (b1, i1, s1) => parseStrLoop endI fuel b1 i1 s1
        else if chr &&& 0xE0 = 0xE0 then
          match shiftB b i endI sectEnd 3 with
          | .error e => .error e
          | .ok (b1, i1, s1) => parseStrLoop endI fuel b1 i1 s1
        else if chr &&& 0xF8 = 0xF8 then
          match shiftB b i endI sectEnd 4 with
          | .error e => .error e
          | .ok (b1, i1, s1) => parseStrLoop endI fuel b1 i1 s1
        else
          .error (.goError .illegalUTF8)
    else
      .ok (b, sectEnd)

/-- Embeds `utf8Iter.parseStrFromBytes`: decodes the span
`[offset, offset+length)` of `b` in place and returns the rewritten buffer
together with `resLen = sectEnd - offset`. -/
def parseStrFromBytes (b : Bytes) (offset length : Nat) :
    Except GoErr (Bytes × Nat) :=
  match parseStrLoop (offset + length) (length + 1) b offset offset with
  | .error e => .error e
  | .ok (b1, sectEnd) => .ok (b1, sectEnd - offset)

/-! ### Value nodes (jsonvalue.go) -/

/-- Embeds `jsonparser.ValueType` (only the variants the package uses). -/
inductive ValueType where
  | NotExist
  | String
  | Number
  | Object
  | Array
  | Boolean
  | Null
  deriving DecidableEq, Repr

/-- Embeds the scalar part of the `V` struct of jsonvalue.go: the type tag,
the raw byte span, the three status flags and the cached scalar values.
Go `string` is a byte sequence, so `str` is `Bytes`; `f64` is modelled as
an exact rational.  The `children` maps are treated separately (see
`ObjChildren` below), since no scalar operation reads them. -/
structure GoV where
  valueType : ValueType := .NotExist
  valueBytes : Bytes := []
  parsed : Bool := false
  negative : Bool := false
  floated : Bool := false
  str : Bytes := []
  i64 : Int := 0
  u64 : Nat := 0
  boolean : Bool := false
  f64 : ℚ := 0
  deriving DecidableEq, Repr

/-- Two's-complement wrap of an `int64` value into `uint64`, Go's
`uint64(i)` for `i : int64`. -/
def u64OfI64 (n : Int) : Nat := (n % (2 ^ 64)).toNat

/-- Reinterpretation of a `uint64` bit pattern as `int64`, Go's
`int64(u)`. -/
def i64OfU64 (n : Nat) : Int :=
  if n < 2 ^ 63 then (n : Int) else (n : Int) - 2 ^ 64

/-- Rational carrier of a Go integer value (the model of `float64(n)`;
exact for the magnitudes the claims exercise). -/
def qOfInt (n : Int) : ℚ := mkRat n 1

/-- Rational carrier of a Go unsigned value. -/
def qOfNat (n : Nat) : ℚ := mkRat (n : Int) 1

/-- Truncation of a rational toward zero, the effect of Go's
float-to-integer conversion on in-range values (out-of-range conversions
are implementation-specific in Go; the claims only exercise in-range
ones). -/
def ratTrunc (q : ℚ) : Int := q.num / (q.den : Int)

/-- Conversion `int64(f)` of the modelled `float64`. -/
def i64OfF64 (q : ℚ) : Int := ratTrunc q

/-- Conversion `uint64(f)` of the modelled `float64`: truncation toward
zero followed by a two's-complement wrap. -/
def u64OfF64 (q : ℚ) : Nat := u64OfI64 (ratTrunc q)

/-- Decimal digit test for a byte. -/
def isDigitB (c : Nat) : Bool := 48 ≤ c ∧ c ≤ 57

/-- Value of a string of decimal digit bytes. -/
def digitsVal (b : Bytes) : Nat :=
  b.foldl (fun acc c => 10 * acc + (c - 48)) 0

/-- Modelled from the spec: `parseUint` (the numeral materializer used by
`parseNumber`, not under src/) parses an unsigned decimal numeral and
"fails for malformed numerals"; the value must fit `uint64`. -/
def parseUint (b : Bytes) : Except Err Nat :=
  if b ≠ [] ∧ b.all isDigitB ∧ digitsVal b < 2 ^ 64 then .ok (digitsVal b)
  else .error .malformedNumber

/-- Modelled from the spec: `parseInt` (not under src/) parses a signed
decimal numeral — an optional leading minus sign followed by digits — into
the `int64` range, failing for malformed or out-of-range numerals. -/
def parseInt (b : Bytes) : Except Err Int :=
  match b with
  | 45 :: rest =>
    if rest ≠ [] ∧ rest.all isDigitB ∧ digitsVal rest ≤ 2 ^ 63 then
      .ok (-(digitsVal rest : Int))
    else .error .malformedNumber
  | _ =>
    if b ≠ [] ∧ b.all isDigitB ∧ digitsVal b < 2 ^ 63 then .ok (digitsVal b)
    else .error .malformedNumber

/-- Modelled from the spec: `parseFloat` (not under src/) parses a decimal
numeral with a well-formed fraction part — optional minus sign, integer
digits, and an optional dot followed by fraction digits — as an exact
rational, failing otherwise (exponents are not exercised by any claim). -/
def parseFloat (b : Bytes) : Except Err ℚ :=
  let core : Bytes → Except Err ℚ := fun s =>
    let ip := s.takeWhile isDigitB
    let rest := s.dropWhile isDigitB
    match rest with
    | [] => if ip ≠ [] then .ok (qOfNat (digitsVal ip)) else .error .malformedNumber
    | 46 :: frac =>
      if ip ≠ [] ∧ frac ≠ [] ∧ frac.all isDigitB then
        .ok (mkRat ((digitsVal ip * 10 ^ frac.length + digitsVal frac : Nat) : Int)
              (10 ^ frac.length))
      else .error .malformedNumber
    | _ => .error .malformedNumber
  match b with
  | 45 :: rest => (core rest).map (fun q => -q)
  | _ => core b

/-- Tests whether the byte span contains a dot, `bytes.Contains(b, ".")`. -/
def hasDot (b : Bytes) : Bool := b.contains 46

/-- Embeds `V.parseNumber` of jsonvalue.go.  Mirrors the mutation order of
the source: the branch flags (`floated`, `negative`) are written before
the numeral parse, so they survive a parse error; on the empty byte span
the read `b[0]` panics.  Returns the updated node together with the
optional error, as the receiver is mutated even when an error is
returned. -/
def parseNumber (v : GoV) : GoV × Option GoErr :=
  let b := v.valueBytes
  if hasDot b then
    match parseFloat b with
    | .error e => ({ v with floated := true }, some (.goError e))
    | .ok f =>
      ({ v with floated := true, f64 := f, parsed := true,
                negative := decide (f < 0),
                i64 := i64OfF64 f, u64 := u64OfF64 f }, none)
  else
    match b with
    | [] => (v, some .goPanic)
    | c :: _ =>
      if c = 45 then
        match parseInt b with
        | .error e => ({ v with negative := true }, some (.goError e))
        | .ok n =>
          ({ v with negative := true, i64 := n, parsed := true,
                    u64 := u64OfI64 n, f64 := qOfInt n }, none)
      else
        match parseUint b with
        | .error e => ({ v with negative := false }, some (.goError e))
        | .ok n =>
          ({ v with negative := false, u64 := n, parsed := true,
                    i64 := i64OfU64 n, f64 := qOfNat n }, none)

/-- Embeds `newFromNumber`: an unparsed number node over the given span. -/
def newFromNumber (b : Bytes) : GoV :=
  { valueType := .Number, valueBytes := b }

/-- Embeds `newFromTrue`: the span must be exactly `true`. -/
def newFromTrue (b : Bytes) : Except GoErr GoV :=
  if b = [116, 114, 117, 101] then
    .ok { valueType := .Boolean, parsed := true,
          valueBytes := [116, 114, 117, 101], boolean := true }
  else .error (.goError .notValidBoolValue)

/-- Embeds `newFromFalse`: the span must be exactly `false`. -/
def newFromFalse (b : Bytes) : Except GoErr GoV :=
  if b = [102, 97, 108, 115, 101] then
    .ok { valueType := .Boolean, parsed := true,
          valueBytes := [102, 97, 108, 115, 101], boolean := false }
  else .error (.goError .notValidBoolValue)

/-- Embeds `newFromNull`: the span must be exactly `null` (the source
reuses the bool-value error for a bad spelling). -/
def newFromNull (b : Bytes) : Except GoErr GoV :=
  if b = [110, 117, 108, 108] then
    .ok { valueType := .Null, parsed := true }
  else .error (.goError .notValidBoolValue)

/-- JSON whitespace bytes skipped by `Unmarshal`: space, `\r`, `\n`, `\t`,
`\b`. -/
def isJsonWS (c : Nat) : Bool :=
  c = 32 ∨ c = 13 ∨ c = 10 ∨ c = 9 ∨ c = 8

/-- Recognized first significant bytes of `Unmarshal`'s dispatch. -/
def recognizedLeading (c : Nat) : Bool :=
  c = 123 ∨ c = 91 ∨ (48 ≤ c ∧ c ≤ 57) ∨ c = 45 ∨ c = 34 ∨
    c = 116 ∨ c = 102 ∨ c = 110

/-- Dispatch loop of `Unmarshal` (jsonvalue.go): walks the bytes, skipping
whitespace, and dispatches on the first significant byte, handing the
*entire remaining suffix* `b[i:]` to the chosen branch.  The object,
array and string branches delegate to `jsonparser.ObjectEach`/`ArrayEach`
(an external dependency) and to `parseString` (not under src/); they are
taken as parameters, so every theorem below holds for *any* behaviour of
those three branches. -/
def unmarshalLoop (objP arrP strP : Bytes → Except GoErr GoV) :
    Bytes → Except GoErr GoV
  | [] => .error (.goError .rawBytesUnrecignized)
  | c :: tail =>
    if isJsonWS c then unmarshalLoop objP arrP strP tail
    else if c = 123 then objP (c :: tail)
    else if c = 91 then arrP (c :: tail)
    else if (48 ≤ c ∧ c ≤ 57) ∨ c = 45 then
      match parseNumber (newFromNumber (c :: tail)) with
      | (_, some e) => .error e
      | (v1, none) => .ok v1
    else if c = 34 then strP (c :: tail)
    else if c = 116 then newFromTrue (c :: tail)
    else if c = 102 then newFromFalse (c :: tail)
    else if c = 110 then newFromNull (c :: tail)
    else .error (.goError .rawBytesUnrecignized)

/-- Embeds `Unmarshal` of jsonvalue.go: nil/empty input is rejected with
`ErrNilParameter` before the dispatch loop runs. -/
def Unmarshal (objP arrP strP : Bytes → Except GoErr GoV) (b : Bytes) :
    Except GoErr GoV :=
  if b = [] then .error (.goError .nilParameter)
  else unmarshalLoop objP arrP strP b

/-- Lazy numeric materialization shared by the numeric predicates and
accessors: parse once, keep the (possibly mutated) node. -/
def lazyParse (v : GoV) : GoV × Option GoErr :=
  if v.parsed then (v, none) else parseNumber v

/-- Embeds `V.IsInteger`: false for non-numbers, false when the lazy parse
returns an error, otherwise the negation of the float flag. -/
def IsInteger (v : GoV) : Except GoErr Bool :=
  if v.valueType ≠ .Number then .ok false
  else
    match lazyParse v with
    | (_, some .goPanic) => .error .goPanic
    | (_, some .outOfFuel) => .error .outOfFuel
    | (_, some (.goError _)) => .ok false
    | (v1, none) => .ok (!v1.floated)

/-- Embeds `V.IsPositive`: false for non-numbers, false when the lazy
parse returns an error, otherwise the negation of the negative flag. -/
def IsPositive (v : GoV) : Except GoErr Bool :=
  if v.valueType ≠ .Number then .ok false
  else
    match lazyParse v with
    | (_, some .goPanic) => .error .goPanic
    | (_, some .outOfFuel) => .error .outOfFuel
    | (_, some (.goError _)) => .ok false
    | (v1, none) => .ok (!v1.negative)

/-- Embeds `V.GreaterThanInt64Max`: false for non-numbers; the lazy-parse
error is *ignored* (but its flag mutations are kept); false for negative
values; otherwise compares the cached `u64` against `0x7fffffffffffffff`. -/
def GreaterThanInt64Max (v : GoV) : Except GoErr Bool :=
  if v.valueType ≠ .Number then .ok false
  else
    match lazyParse v with
    | (_, some .goPanic) => .error .goPanic
    | (_, some .outOfFuel) => .error .outOfFuel
    | (v1, _) =>
      if v1.negative then .ok false
      else .ok (decide (v1.u64 > 0x7fffffffffffffff))

/-- Modelled from the spec: the leaf constructor `NewInt64` (not under
src/) builds an already-materialized number node holding the given
value. -/
def NewInt64 (n : Int) : GoV :=
  { valueType := .Number, parsed := true, negative := decide (n < 0),
    i64 := n, u64 := u64OfI64 n, f64 := qOfInt n }

/-- Embeds `getNumberFromNotNumberValue` of jsonvalue.go.  For a
non-string node it returns a zero number node (`NewInt(0)`); for a string
node it re-parses the *decoded* string text as a number, falling back to
`NewInt64(0)` when `parseNumber` reports an error — but a panic inside
`parseNumber` (empty text) propagates. -/
def getNumberFromNotNumberValue (v : GoV) : Except GoErr GoV :=
  if v.valueType ≠ .String then .ok (NewInt64 0)
  else
    match parseNumber (newFromNumber v.str) with
    | (_, some .goPanic) => .error .goPanic
    | (_, some .outOfFuel) => .error .outOfFuel
    | (_, some (.goError _)) => .ok (NewInt64 0)
    | (v1, none) => .ok v1

/-- Number path of `V.Int64`: lazily materialize, ignore a returned error
(a panic propagates), read the cached `i64`. -/
def int64OfNumber (v : GoV) : Except GoErr Int :=
  match lazyParse v with
  | (_, some .goPanic) => .error .goPanic
  | (_, some .outOfFuel) => .error .outOfFuel
  | (v1, _) => .ok v1.i64

/-- Embeds `V.Int64` of jsonvalue.go: a non-number node is first routed
through `getNumberFromNotNumberValue`, whose (number) result is read with
the number path. -/
def Int64 (v : GoV) : Except GoErr Int :=
  if v.valueType ≠ .Number then
    match getNumberFromNotNumberValue v with
    | .error e => .error e
    | .ok v1 => int64OfNumber v1
  else int64OfNumber v

/-- Number path of `V.Uint64`. -/
def uint64OfNumber (v : GoV) : Except GoErr Nat :=
  match lazyParse v with
  | (_, some .goPanic) => .error .goPanic
  | (_, some .outOfFuel) => .error .outOfFuel
  | (v1, _) => .ok v1.u64

/-- Embeds `V.Uint64` of jsonvalue.go. -/
def Uint64 (v : GoV) : Except GoErr Nat :=
  if v.valueType ≠ .Number then
    match getNumberFromNotNumberValue v with
    | .error e => .error e
    | .ok v1 => uint64OfNumber v1
  else uint64OfNumber v

/-! ### Object children and the caseless key index (jsonvalue.go) -/

/-- Embeds the `children` struct of an object node: the primary
key-to-child map `object` and the auxiliary caseless index
`lowerCaseKeys` (lowercase key to the set of original-case keys present).
Go maps are functions to `Option`; the inner `map[string]struct{}` is a
finite set.  The child type is a parameter, since none of the index
operations inspects children. -/
structure ObjChildren (α : Type) where
  object : String → Option α
  lowerCaseKeys : String → Option (Finset String)

/-- Embeds the map initialization in `newObject`: both maps empty. -/
def newObjectChildren (α : Type) : ObjChildren α :=
  ⟨fun _ => none, fun _ => none⟩

/-- Embeds `V.addCaselessKey`: fetch (or create) the bucket under the
lowercase form of `k` and put `k` into it. -/
def addCaselessKey (c : ObjChildren α) (k : String) : ObjChildren α :=
  let lowerK := k.toLower
  match c.lowerCaseKeys lowerK with
  | some keys =>
    { c with lowerCaseKeys :=
        fun s => if s = lowerK then some (insert k keys) else c.lowerCaseKeys s }
  | none =>
    { c with lowerCaseKeys :=
        fun s => if s = lowerK then some {k} else c.lowerCaseKeys s }

/-- Embeds `V.delCaselessKey`: remove `k` from the bucket under its
lowercase form (if the bucket exists) and drop the bucket when it becomes
empty. -/
def delCaselessKey (c : ObjChildren α) (k : String) : ObjChildren α :=
  let lowerK := k.toLower
  match c.lowerCaseKeys lowerK with
  | none => c
  | some keys =>
    let keys1 := keys.erase k
    if keys1 = ∅ then
      { c with lowerCaseKeys :=
          fun s => if s = lowerK then none else c.lowerCaseKeys s }
    else
      { c with lowerCaseKeys :=
          fun s => if s = lowerK then some keys1 else c.lowerCaseKeys s }

/-- Modelled from the spec: `setToObjectChildren` (called by
`newFromObject` but not under src/) stores the key/child pair in the
primary mapping and updates the caseless index transactionally via
`addCaselessKey`. -/
def setToObjectChildren (c : ObjChildren α) (k : String) (child : α) :
    ObjChildren α :=
  addCaselessKey
    { c with object := fun s => if s = k then some child else c.object s } k

/-- Modelled from the spec: key deletion (not under src/) removes the key
from the primary mapping and updates the caseless index transactionally
via `delCaselessKey`. -/
def delFromObjectChildren (c : ObjChildren α) (k : String) : ObjChildren α :=
  delCaselessKey
    { c with object := fun s => if s = k then none else c.object s } k

/-- The invariant of claim C9: every key of the primary mapping is present
(a `Finset` membership is by construction an "exactly once" occurrence)
in the bucket stored under its lowercase form, and no empty bucket exists
in the index. -/
def caselessInvariant (c : ObjChildren α) : Prop :=
  (∀ k : String, (c.object k).isSome →
     ∃ keys, c.lowerCaseKeys k.toLower = some keys ∧ k ∈ keys) ∧
  (∀ lk keys, c.lowerCaseKeys lk = some keys → keys ≠ ∅)

/-- Trivial stand-in for the delegated object/array/string branches of
`Unmarshal` in closed statements; no theorem below ever reaches these
branches. -/
def unusedBranch : Bytes → Except GoErr GoV := fun _ => .error .outOfFuel

/-- Byte text of the numeral 18446744073709551615. -/
def n18Bytes : Bytes :=
  [49, 56, 52, 52, 54, 55, 52, 52, 48, 55, 51, 55, 48, 57, 53, 53, 49, 54, 49, 53]

/-- Node produced by `Unmarshal` on that numeral: the unsigned cache holds
the full magnitude, the signed cache wraps to -1, and the flags mark a
parsed, non-negative, non-float number. -/
def n18V : GoV :=
  { valueType := .Number, valueBytes := n18Bytes, parsed := true,
    negative := false, floated := false,
    i64 := -1, u64 := 18446744073709551615,
    f64 := qOfNat 18446744073709551615 }

/-- Node produced by materializing the literal 3.9: float flag set, float
cache 39/10, both integer caches truncated to 3. -/
def numNode39 : GoV :=
  { valueType := .Number, valueBytes := [51, 46, 57], parsed := true,
    negative := false, floated := true, i64 := 3, u64 := 3,
    f64 := mkRat 39 10 }

/-- Node produced by materializing the literal -1: negative flag set,
signed cache -1, unsigned cache the two's-complement image
18446744073709551615. -/
def numNodeNeg1 : GoV :=
  { valueType := .Number, valueBytes := [45, 49], parsed := true,
    negative := true, floated := false, i64 := -1,
    u64 := 18446744073709551615, f64 := qOfInt (-1) }

/-! ### Theorems for the claims -/

/-- Claim C1 (code_bug evidence): on the well-formed 3-byte UTF-8 sequence
E4 B8 AD (U+4E2D) with no escapes, `parseStrFromBytes` does not copy the
sequence as a 3-byte block — the mask of `runeIdentifyingBytes2`
(`chr & 0xC0 == 0xC0`) also matches 3-byte leaders, the leader is consumed
as a 2-byte sequence, and the final continuation byte is rejected with the
illegal-UTF8 error.  A 2-byte sequence after ASCII decodes fine, showing
the failure is specific to the longer sequences. -/
theorem parseStrFromBytes_threeByte_rejected :
    parseStrFromBytes [0xE4, 0xB8, 0xAD] 0 3 =
      .error (.goError .illegalUTF8) ∧
    parseStrFromBytes [104, 105, 0xC2, 0xA9] 0 4 =
      .ok ([104, 105, 0xC2, 0xA9], 4) := by
  decide

/-- Claim C2 (code_bug evidence): the escape pair `\uD800A` has a
high surrogate followed by a unit *below* the low-surrogate range, yet the
decode succeeds: the source checks `ex - 0xDC00 > 0x3FF` on a signed rune,
which a negative underflow passes, and the combined (garbage) code point
U+2441 is emitted as the UTF-8 bytes E2 91 81. -/
theorem parseStrFromBytes_lowSurrogate_underflow :
    parseStrFromBytes [92, 117, 68, 56, 48, 48, 92, 117, 48, 48, 52, 49] 0 12 =
      .ok ([226, 145, 129, 56, 48, 48, 92, 117, 48, 48, 52, 49], 3) := by
  decide

/-- Claim C5 (code_bug evidence): the escape `\u00gg` contains the
non-hex letter `g` twice, yet the decode succeeds — `chrToHex` accepts the
whole ranges `a-z` and `A-Z`, mapping `g` to 16, so the escape decodes to
U+0110 (bytes C4 90) instead of failing. -/
theorem parseStrFromBytes_nonHex_accepted :
    parseStrFromBytes [92, 117, 48, 48, 103, 103] 0 6 =
      .ok ([196, 144, 48, 48, 103, 103], 2) := by
  decide

/-- Claim C6 (code_bug evidence): on a span consisting of a single
backslash, the guard `end-*i < 1` of `handleEscapeStart` does not fire
(it would need to be `< 2`), and the decoder reads the byte at index 1 —
one past the end of the buffer — which is a Go runtime panic, not the
descriptive truncation error. -/
theorem parseStrFromBytes_trailing_backslash_panics :
    parseStrFromBytes [92] 0 1 = .error .goPanic := by
  decide

/-- Claim C4 (code_bug evidence): `Unmarshal` on the text `  true  `
(leading and trailing whitespace) fails with the not-valid-bool error for
any behaviour of the delegated object/array/string branches: the dispatch
hands the entire suffix `true  ` to `newFromTrue`, which demands exactly
the four bytes `true`.  The claim (and the repository's own test of
whitespace-padded input) expects a successful parse to the boolean true. -/
theorem unmarshal_trailing_whitespace_true_fails :
    ∀ objP arrP strP : Bytes → Except GoErr GoV,
    Unmarshal objP arrP strP [32, 32, 116, 114, 117, 101, 32, 32] =
      .error (.goError .notValidBoolValue) := by
  intro objP arrP strP
  rfl

/-- Claim C7 (code_bug evidence): the numeric accessor `Int64` applied to
a String node whose decoded text is empty panics (the fallback path
builds a number node over the empty span and `parseNumber` reads `b[0]`)
instead of returning the zero value; on a non-string wrong-variant node it
returns 0 and on a numeric string it returns the parsed value, as the
claim describes. -/
theorem int64_on_empty_string_panics :
    Int64 { valueType := .String, parsed := true, str := [] } =
      .error .goPanic ∧
    Int64 { valueType := .Object } = .ok 0 ∧
    Int64 { valueType := .String, parsed := true, str := [51, 46, 57] } =
      .ok 3 ∧
    Int64 { valueType := .String, parsed := true, str := [97, 98, 99] } =
      .ok 0 := by
  decide

/-- Helper: the dispatch loop rejects a whitespace-only suffix with the
raw-bytes-unrecognized error, for any delegated branches. -/
theorem unmarshalLoop_ws_only (objP arrP strP : Bytes → Except GoErr GoV) :
    ∀ b : Bytes, (∀ c ∈ b, isJsonWS c = true) →
      unmarshalLoop objP arrP strP b = .error (.goError .rawBytesUnrecignized) := by
  intro b
  induction b with
  | nil => intro _; rfl
  | cons c t ih =>
    intro h
    have hc : isJsonWS c = true := h c (by simp)
    have ht : ∀ x ∈ t, isJsonWS x = true := fun x hx => h x (by simp [hx])
    simp [unmarshalLoop, hc, ih ht]

/-- Helper: the dispatch loop rejects any suffix whose first significant
byte is outside the recognized set. -/
theorem unmarshalLoop_bad_leading (objP arrP strP : Bytes → Except GoErr GoV) :
    ∀ (pre : Bytes) (c : Nat) (post : Bytes),
      (∀ x ∈ pre, isJsonWS x = true) → isJsonWS c = false →
      recognizedLeading c = false →
      unmarshalLoop objP arrP strP (pre ++ c :: post) =
        .error (.goError .rawBytesUnrecignized) := by
  intro pre c post hpre hc hr
  induction pre with
  | nil =>
    simp only [List.nil_append]
    simp only [recognizedLeading, decide_eq_false_iff_not, not_or] at hr
    obtain ⟨h1, h2, h3, h4, h5, h6, h7, h8⟩ := hr
    simp [unmarshalLoop, hc, h1, h2, h3, h4, h5, h6, h7, h8]
  | cons x t ih =>
    have hx : isJsonWS x = true := hpre x (by simp)
    have ht : ∀ y ∈ t, isJsonWS y = true := fun y hy => hpre y (by simp [hy])
    simp [unmarshalLoop, hx, ih ht]

/-- Claim C8 (counterexample to the claim as stated): empty input does
*not* produce the raw-bytes-unrecognized error — `Unmarshal` rejects it
earlier with the distinct `ErrNilParameter`. -/
theorem unmarshal_empty_nilParameter :
    Unmarshal unusedBranch unusedBranch unusedBranch [] =
      .error (.goError .nilParameter) ∧
    Err.nilParameter ≠ Err.rawBytesUnrecignized := by
  decide

/-- Claim C8 (amended): a nil/empty input fails with the nil-parameter
error; a whitespace-only input, or one whose first non-whitespace byte is
outside the recognized dispatch set, fails with the raw-bytes-unrecognized
error — for any behaviour of the delegated object/array/string branches;
in every case no value is produced. -/
theorem unmarshal_reject_spec :
    ∀ objP arrP strP : Bytes → Except GoErr GoV,
    (Unmarshal objP arrP strP [] = .error (.goError .nilParameter)) ∧
    (∀ b : Bytes, b ≠ [] → (∀ c ∈ b, isJsonWS c = true) →
      Unmarshal objP arrP strP b = .error (.goError .rawBytesUnrecignized)) ∧
    (∀ (pre : Bytes) (c : Nat) (post : Bytes),
      (∀ x ∈ pre, isJsonWS x = true) → isJsonWS c = false →
      recognizedLeading c = false →
      Unmarshal objP arrP strP (pre ++ c :: post) =
        .error (.goError .rawBytesUnrecignized)) := by
  intro objP arrP strP
  refine ⟨rfl, ?_, ?_⟩
  · intro b hne hws
    rw [Unmarshal, if_neg hne]
    exact unmarshalLoop_ws_only objP arrP strP b hws
  · intro pre c post hpre hc hr
    rw [Unmarshal, if_neg (by simp)]
    exact unmarshalLoop_bad_leading objP arrP strP pre c post hpre hc hr

/-- Witness for the amended C8 theorem: concrete rejected inputs — a
single space, and a space followed by the unrecognized byte `@`. -/
theorem unmarshal_reject_spec_witness :
    Unmarshal unusedBranch unusedBranch unusedBranch [32] =
      .error (.goError .rawBytesUnrecignized) ∧
    Unmarshal unusedBranch unusedBranch unusedBranch [32, 64] =
      .error (.goError .rawBytesUnrecignized) :=
  ⟨(unmarshal_reject_spec unusedBranch unusedBranch unusedBranch).2.1 [32]
      (by decide) (by decide),
   (unmarshal_reject_spec unusedBranch unusedBranch unusedBranch).2.2 [32] 64 []
      (by decide) (by decide) (by decide)⟩

/-- Helper: a digits-only byte string contains no dot. -/
theorem all_digits_hasDot_false :
    ∀ {b : Bytes}, b.all isDigitB = true → hasDot b = false := by
  intro b
  induction b with
  | nil => intro _; rfl
  | cons c t ih =>
    intro h
    rw [List.all_cons, Bool.and_eq_true] at h
    have hc : c ≠ 46 := by
      have := h.1
      simp [isDigitB] at this
      omega
    simp [hasDot, List.contains_cons] at *
    exact ⟨fun hcc => hc hcc.symm, ih h.2⟩

/-- Claim C3: `GreaterThanInt64Max` holds exactly for number nodes whose
digits-only numeral exceeds `0x7fffffffffffffff` (part 1); it is false for
minus-signed numerals (part 2) and for any node that is not a number
(part 3); and unmarshaling `18446744073709551615` yields a number node on
which `IsInteger`, `IsPositive` and `GreaterThanInt64Max` all hold
(parts 4-7). -/
theorem greaterThanInt64Max_spec :
    (∀ b : Bytes, b ≠ [] → b.all isDigitB = true → digitsVal b < 2 ^ 64 →
      GreaterThanInt64Max (newFromNumber b) =
        .ok (decide (digitsVal b > 0x7fffffffffffffff))) ∧
    (∀ b : Bytes, b.head? = some 45 → hasDot b = false →
      GreaterThanInt64Max (newFromNumber b) = .ok false) ∧
    (∀ v : GoV, v.valueType ≠ .Number → GreaterThanInt64Max v = .ok false) ∧
    (∀ objP arrP strP : Bytes → Except GoErr GoV,
      Unmarshal objP arrP strP n18Bytes = .ok n18V) ∧
    IsInteger n18V = .ok true ∧
    IsPositive n18V = .ok true ∧
    GreaterThanInt64Max n18V = .ok true := by
  refine ⟨?_, ?_, ?_, ?_, by decide, by decide, by decide⟩
  · intro b hne hdig hlt
    have hdot := all_digits_hasDot_false hdig
    obtain ⟨c, t, rfl⟩ : ∃ c t, b = c :: t := by
      cases b with
      | nil => exact absurd rfl hne
      | cons c t => exact ⟨c, t, rfl⟩
    have hc : isDigitB c = true := by
      rw [List.all_cons, Bool.and_eq_true] at hdig
      exact hdig.1
    have hc45 : ¬(c = 45) := by
      simp [isDigitB] at hc
      omega
    simp [GreaterThanInt64Max, lazyParse, newFromNumber, parseNumber, hdot,
      hc45, parseUint, hne, hdig]
    have hlt2 : digitsVal (c :: t) < 18446744073709551616 := by
      norm_num at hlt
      exact hlt
    rw [if_pos hlt2]
    simp
  · intro b hhead hdot
    obtain ⟨t, rfl⟩ : ∃ t, b = 45 :: t := by
      cases b with
      | nil => simp at hhead
      | cons c t =>
        simp only [List.head?_cons, Option.some.injEq] at hhead
        exact ⟨t, by rw [hhead]⟩
    cases hp : parseInt (45 :: t) with
    | error e =>
      simp [GreaterThanInt64Max, lazyParse, newFromNumber, parseNumber, hdot, hp]
    | ok n =>
      simp [GreaterThanInt64Max, lazyParse, newFromNumber, parseNumber, hdot, hp]
  · intro v hv
    simp [GreaterThanInt64Max, hv]
  · intro objP arrP strP
    rfl

/-- Witness for the C3 theorem: part 1 at the numerals 99 and
9223372036854775808, part 2 at -1, part 3 at a boolean node. -/
theorem greaterThanInt64Max_spec_witness :
    GreaterThanInt64Max (newFromNumber [57, 57]) =
      .ok (decide (digitsVal [57, 57] > 0x7fffffffffffffff)) ∧
    GreaterThanInt64Max
        (newFromNumber [57, 50, 50, 51, 51, 55, 50, 48, 51, 54, 56, 53, 52, 55, 55, 53, 56, 48, 56]) =
      .ok (decide
        (digitsVal [57, 50, 50, 51, 51, 55, 50, 48, 51, 54, 56, 53, 52, 55, 55, 53, 56, 48, 56] >
          0x7fffffffffffffff)) ∧
    GreaterThanInt64Max (newFromNumber [45, 49]) = .ok false ∧
    GreaterThanInt64Max { valueType := ValueType.Boolean } = .ok false :=
  ⟨greaterThanInt64Max_spec.1 [57, 57] (by decide) (by decide) (by decide),
   greaterThanInt64Max_spec.1
      [57, 50, 50, 51, 51, 55, 50, 48, 51, 54, 56, 53, 52, 55, 55, 53, 56, 48, 56]
      (by decide) (by decide) (by decide),
   greaterThanInt64Max_spec.2.1 [45, 49] (by decide) (by decide),
   greaterThanInt64Max_spec.2.2.1 { valueType := ValueType.Boolean } (by decide)⟩

/-- Claim C9: the caseless-index invariant — every key of the primary
mapping occurs (exactly once, as the bucket is a set) in the bucket under
its lowercase form, and no empty bucket persists — holds of a fresh object
and is preserved by every key insert and every key delete. -/
theorem caseless_invariant_maintained :
    (∀ α : Type, caselessInvariant (newObjectChildren α)) ∧
    (∀ (α : Type) (c : ObjChildren α) (k : String) (child : α),
      caselessInvariant c → caselessInvariant (setToObjectChildren c k child)) ∧
    (∀ (α : Type) (c : ObjChildren α) (k : String),
      caselessInvariant c → caselessInvariant (delFromObjectChildren c k)) := by
  refine ⟨?_, ?_, ?_⟩
  · intro α
    exact ⟨fun k hk => by simp [newObjectChildren] at hk,
           fun lk keys h => by simp [newObjectChildren] at h⟩
  · rintro α c k child ⟨h1, h2⟩
    cases hb : c.lowerCaseKeys k.toLower with
    | some keys =>
      refine ⟨?_, ?_⟩
      · intro k2 hk2
        simp only [setToObjectChildren, addCaselessKey, hb] at hk2 ⊢
        by_cases hkk : k2 = k
        · subst hkk
          exact ⟨insert k2 keys, by simp, Finset.mem_insert_self _ _⟩
        · rw [if_neg hkk] at hk2
          obtain ⟨ks2, hks2, hm⟩ := h1 k2 hk2
          by_cases hlk : k2.toLower = k.toLower
          · have hkeq : ks2 = keys := by
              rw [hlk, hb] at hks2
              exact Option.some.inj hks2.symm
            exact ⟨insert k keys, by rw [if_pos hlk],
              Finset.mem_insert_of_mem (hkeq ▸ hm)⟩
          · exact ⟨ks2, by rw [if_neg hlk]; exact hks2, hm⟩
      · intro lk ks h
        simp only [setToObjectChildren, addCaselessKey, hb] at h
        by_cases hlk : lk = k.toLower
        · rw [if_pos hlk] at h
          have : ks = insert k keys := Option.some.inj h.symm
          rw [this]
          exact Finset.insert_ne_empty _ _
        · rw [if_neg hlk] at h
          exact h2 lk ks h
    | none =>
      refine ⟨?_, ?_⟩
      · intro k2 hk2
        simp only [setToObjectChildren, addCaselessKey, hb] at hk2 ⊢
        by_cases hkk : k2 = k
        · subst hkk
          exact ⟨{k2}, by simp, Finset.mem_singleton_self _⟩
        · rw [if_neg hkk] at hk2
          obtain ⟨ks2, hks2, hm⟩ := h1 k2 hk2
          by_cases hlk : k2.toLower = k.toLower
          · rw [hlk, hb] at hks2
            exact absurd hks2 (by simp)
          · exact ⟨ks2, by rw [if_neg hlk]; exact hks2, hm⟩
      · intro lk ks h
        simp only [setToObjectChildren, addCaselessKey, hb] at h
        by_cases hlk : lk = k.toLower
        · rw [if_pos hlk] at h
          have : ks = {k} := Option.some.inj h.symm
          rw [this]
          exact Finset.singleton_ne_empty _
        · rw [if_neg hlk] at h
          exact h2 lk ks h
  · rintro α c k ⟨h1, h2⟩
    cases hb : c.lowerCaseKeys k.toLower with
    | none =>
      refine ⟨?_, ?_⟩
      · intro k2 hk2
        simp only [delFromObjectChildren, delCaselessKey, hb] at hk2 ⊢
        by_cases hkk : k2 = k
        · rw [if_pos hkk] at hk2
          simp at hk2
        · rw [if_neg hkk] at hk2
          exact h1 k2 hk2
      · intro lk ks h
        simp only [delFromObjectChildren, delCaselessKey, hb] at h
        exact h2 lk ks h
    | some keys =>
      by_cases he : keys.erase k = ∅
      · refine ⟨?_, ?_⟩
        · intro k2 hk2
          simp only [delFromObjectChildren, delCaselessKey, hb, he, if_pos] at hk2 ⊢
          by_cases hkk : k2 = k
          · rw [if_pos hkk] at hk2
            simp at hk2
          · rw [if_neg hkk] at hk2
            obtain ⟨ks2, hks2, hm⟩ := h1 k2 hk2
            by_cases hlk : k2.toLower = k.toLower
            · have hkeq : ks2 = keys := by
                rw [hlk, hb] at hks2
                exact Option.some.inj hks2.symm
              have : k2 ∈ keys.erase k :=
                Finset.mem_erase.mpr ⟨hkk, hkeq ▸ hm⟩
              rw [he] at this
              exact absurd this (Finset.not_mem_empty _)
            · exact ⟨ks2, by rw [if_neg hlk]; exact hks2, hm⟩
        · intro lk ks h
          simp only [delFromObjectChildren, delCaselessKey, hb, he, if_pos] at h
          by_cases hlk : lk = k.toLower
          · rw [if_pos hlk] at h
            exact absurd h (by simp)
          · rw [if_neg hlk] at h
            exact h2 lk ks h
      · refine ⟨?_, ?_⟩
        · intro k2 hk2
          simp only [delFromObjectChildren, delCaselessKey, hb, he, if_neg,
            ite_false] at hk2 ⊢
          by_cases hkk : k2 = k
          · rw [if_pos hkk] at hk2
            simp at hk2
          · rw [if_neg hkk] at hk2
            obtain ⟨ks2, hks2, hm⟩ := h1 k2 hk2
            by_cases hlk : k2.toLower = k.toLower
            · have hkeq : ks2 = keys := by
                rw [hlk, hb] at hks2
                exact Option.some.inj hks2.symm
              exact ⟨keys.erase k, by rw [if_pos hlk],
                Finset.mem_erase.mpr ⟨hkk, hkeq ▸ hm⟩⟩
            · exact ⟨ks2, by rw [if_neg hlk]; exact hks2, hm⟩
        · intro lk ks h
          simp only [delFromObjectChildren, delCaselessKey, hb, he, if_neg,
            ite_false] at h
          by_cases hlk : lk = k.toLower
          · rw [if_pos hlk] at h
            have : ks = keys.erase k := Option.some.inj h.symm
            rw [this]
            exact he
          · rw [if_neg hlk] at h
            exact h2 lk ks h

/-- Witness for the C9 theorem: the invariant of the empty object is
carried through an insert and then a delete of the key `Ab`. -/
theorem caseless_invariant_maintained_witness :
    caselessInvariant (setToObjectChildren (newObjectChildren Nat) "Ab" 7) ∧
    caselessInvariant
      (delFromObjectChildren (setToObjectChildren (newObjectChildren Nat) "Ab" 7) "Ab") :=
  ⟨caseless_invariant_maintained.2.1 Nat (newObjectChildren Nat) "Ab" 7
      (caseless_invariant_maintained.1 Nat),
   caseless_invariant_maintained.2.2 Nat
      (setToObjectChildren (newObjectChildren Nat) "Ab" 7) "Ab"
      (caseless_invariant_maintained.2.1 Nat (newObjectChildren Nat) "Ab" 7
        (caseless_invariant_maintained.1 Nat))⟩

/-- Claim C10: after a successful numeric materialization the three cached
representations are linked deterministically — with a decimal point the
integer caches are the truncation toward zero of the float value; with a
leading minus and no point the unsigned cache is the two's-complement
image of the signed one and the float mirrors the signed value; otherwise
the signed cache reinterprets the unsigned bits and the float mirrors the
unsigned value.  Concretely, `Int64` of the literal 3.9 is 3 and `Uint64`
of the literal -1 is 18446744073709551615. -/
theorem parseNumber_representation_links :
    (∀ (b : Bytes) (v1 : GoV),
      parseNumber (newFromNumber b) = (v1, none) →
      (hasDot b = true →
        v1.i64 = i64OfF64 v1.f64 ∧ v1.u64 = u64OfF64 v1.f64) ∧
      (hasDot b = false → b.head? = some 45 →
        v1.u64 = u64OfI64 v1.i64 ∧ v1.f64 = qOfInt v1.i64) ∧
      (hasDot b = false → (∀ c, b.head? = some c → ¬(c = 45)) →
        v1.i64 = i64OfU64 v1.u64 ∧ v1.f64 = qOfNat v1.u64)) ∧
    Int64 (newFromNumber [51, 46, 57]) = .ok 3 ∧
    Uint64 (newFromNumber [45, 49]) = .ok 18446744073709551615 := by
  refine ⟨?_, by decide, by decide⟩
  intro b v1 hp
  by_cases hdot : hasDot b
  · refine ⟨fun _ => ?_, fun hnd _ => absurd hdot (by rw [hnd]; simp),
      fun hnd _ => absurd hdot (by rw [hnd]; simp)⟩
    rw [parseNumber] at hp
    simp only [newFromNumber, hdot, if_true] at hp
    cases hpf : parseFloat b with
    | error e =>
      rw [hpf] at hp
      simp at hp
    | ok f =>
      rw [hpf] at hp
      obtain ⟨rfl, -⟩ := Prod.mk.injEq .. ▸ hp
      exact ⟨rfl, rfl⟩
  · rw [parseNumber] at hp
    simp only [newFromNumber, hdot, if_false, Bool.false_eq_true] at hp
    cases b with
    | nil => simp at hp
    | cons c t =>
      by_cases hc : c = 45
      · subst hc
        simp only [if_true] at hp
        cases hpi : parseInt (45 :: t) with
        | error e =>
          rw [hpi] at hp
          simp at hp
        | ok n =>
          rw [hpi] at hp
          obtain ⟨rfl, -⟩ := Prod.mk.injEq .. ▸ hp
          refine ⟨fun hd => absurd hd hdot, fun _ _ => ⟨rfl, rfl⟩,
            fun _ hno => absurd rfl (hno 45 rfl)⟩
      · simp only [hc, if_false] at hp
        cases hpu : parseUint (c :: t) with
        | error e =>
          rw [hpu] at hp
          simp at hp
        | ok n =>
          rw [hpu] at hp
          obtain ⟨rfl, -⟩ := Prod.mk.injEq .. ▸ hp
          refine ⟨fun hd => absurd hd hdot,
            fun _ hh => absurd (Option.some.inj hh) hc, fun _ _ => ⟨rfl, rfl⟩⟩

/-- Witness for the C10 theorem: the linking relations instantiated at the
literals 3.9 (decimal-point branch) and -1 (negative branch). -/
theorem parseNumber_representation_links_witness :
    (numNode39.i64 = i64OfF64 numNode39.f64 ∧
      numNode39.u64 = u64OfF64 numNode39.f64) ∧
    (numNodeNeg1.u64 = u64OfI64 numNodeNeg1.i64 ∧
      numNodeNeg1.f64 = qOfInt numNodeNeg1.i64) :=
  ⟨(parseNumber_representation_links.1 [51, 46, 57] numNode39 (by decide)).1
      (by decide),
   (parseNumber_representation_links.1 [45, 49] numNodeNeg1 (by decide)).2.1
      (by decide) (by decide)⟩

end GoJsonvalue
